import Mathlib

/-!
Verification of the "Octal Plus" six-bit microcontroller simulator and its
assembler (`py/toys/octalplus.py`), as a shallow embedding in Lean 4.

Machine bytes and addresses are six bits wide.  The Python source stores
cells as plain integers and masks every write with `value &= 077`; here the
stored cells are `Nat` values and the mask is written as reduction modulo 64
(`value % 64`), which agrees with Python's `& 077` on every integer,
including negative ones.  Bit tests on possibly-negative intermediate values
(`value & 0040`, `value & 0300`) are likewise rendered as the equivalent
range tests on `value % 64` / `value % 256`; each such spot carries a
comment quoting the original expression.

Nondeterministic hooks (`Machine.inp`, which the source implements with a
random stub) are modelled by passing the input byte as an explicit
parameter; the `out`/`display`/`sleep` hooks are no-ops in the source's
headless configuration and are dropped.
-/

namespace OctalPlus

/-- Characters used as quote delimiters in the assembler syntax. -/
def squote : Char := Char.ofNat 39

def dquote : Char := Char.ofNat 34

/-- The 64-character OSCII display alphabet, in the order of the source's
eight 8-character rows. -/
def OSCII : List Char :=
  " ABCDEFGHIJKLMNOPQRSTUVWXYZ0123456789.!@#$%^&*-=+:;?<>[]\x7b\x7d()".toList
    ++ [squote, dquote, '/', '\\']

/-- `ENCODING = dict(zip(list(OSCII), range(0100)))`: the index of a
character in OSCII, or `none` for characters outside the alphabet. -/
def ENCODING (c : Char) : Option Nat :=
  OSCII.findIdx? (fun x => x = c)

/-- The operation-class name of each of the 64 opcodes. -/
def OPCODES : List String :=
  [ "clr",  "clr",  "jmp",  "ql0", "clr",  "clr",  "clr",  "qs0",
    "load", "load", "load", "ql1", "jc",   "jm",   "jz",   "qs1",
    "save", "save", "save", "ql2", "jnc",  "jnm",  "jnz",  "qs2",
    "pop",  "pop",  "ret",  "ql3", "rol",  "inc",  "pop",  "qs3",
    "push", "push", "call", "ql4", "ror",  "dec",  "push", "qs4",
    "load", "load", "stop", "ql5", "load", "load", "load", "qs5",
    "add",  "add",  "add",  "ql6", "and",  "and",  "and",  "qs6",
    "sub",  "sub",  "sub",  "ql7", "or",   "or",   "or",   "qs7" ]

/-- The argument of `Machine.get`/`Machine.set`: either a register name, a
flag name, the pseudo-source `X`, or a numeric memory address (the source
passes strings or integers; a sum type renders the same dispatch). -/
inductive Addr where
  | A | B | I | S | F
  | C | M | Z
  | X
  | mem (a : Int)
deriving DecidableEq, Repr

/-- An entry of the `SOURCES`/`TARGETS` addressing tables: `'_'` is `imm`,
`'[_]'` is `indImm`, `'[B]'`/`'[S]'` are `indB`/`indS`, register and flag
names are `rA`..`fZ`, and the numeric quick-page entries `0..7` are
`quick n`. -/
inductive Mode where
  | X | imm | indImm | indB | indS
  | rA | rB | rI | rF
  | fC | fM | fZ
  | quick (n : Nat)
deriving DecidableEq, Repr

/-- Machine state: the 64 memory cells, the five registers `A B I S F`
(the source keeps them in a list indexed through `Machine.REGISTERS`;
named fields render the same state), and the internal clock. -/
structure Machine where
  memory : List Nat
  regA : Nat
  regB : Nat
  regI : Nat
  regS : Nat
  regF : Nat
  clock : Nat
deriving DecidableEq, Repr

namespace Machine

def RAM : Nat := 0o00
def RAMLEN : Nat := 0o24
def PROM : Nat := 0o30
def PROMLEN : Nat := 0o50
def SCREEN : Nat := 0o20
def DIRECTIONS : Nat := 0o24
def PORTS : Nat := 0o25
def TICKSLOW : Nat := 0o26
def TICKFAST : Nat := 0o27
def STACK : Nat := 0o20

/-- `FLAGS = { 'C': 004, 'M': 002, 'Z': 001 }`. -/
def FLAGS : Addr → Nat
  | .C => 0o04
  | .M => 0o02
  | .Z => 0o01
  | _ => 0

def STOP : Nat := 0o52
def POPS : List Nat := [0o30, 0o31, 0o32, 0o36]
def PUSHES : List Nat := [0o40, 0o41, 0o42, 0o46]
def BASES : List Nat := [0o12, 0o22, 0o62, 0o72, 0o56, 0o66, 0o76]
def IMMEDIATES : List Nat :=
  [0o02, 0o10, 0o11, 0o14, 0o15, 0o16,
   0o20, 0o21, 0o24, 0o25, 0o26,
   0o42, 0o54, 0o55, 0o56,
   0o60, 0o64, 0o70, 0o74]

/-- Source addressing mode of each opcode. -/
def SOURCES : List Mode :=
  [ .X,      .X,      .imm,  .quick 0, .X,    .X,   .X,    .rA,
    .indImm, .indImm, .indB, .quick 1, .imm,  .imm, .imm,  .rA,
    .rA,     .rB,     .rA,   .quick 2, .imm,  .imm, .imm,  .rA,
    .indS,   .indS,   .indS, .quick 3, .rA,   .rB,  .indS, .rA,
    .rA,     .rB,     .imm,  .quick 4, .rA,   .rB,  .rF,   .rA,
    .rB,     .rA,     .X,    .quick 5, .imm,  .imm, .imm,  .rA,
    .imm,    .rB,     .indB, .quick 6, .imm,  .rB,  .indB, .rA,
    .imm,    .rB,     .indB, .quick 7, .imm,  .rB,  .indB, .rA ]

/-- Target addressing mode of each opcode. -/
def TARGETS : List Mode :=
  [ .rA,     .rB,     .rI,   .rA, .fC, .fM, .fZ,   .quick 0,
    .rA,     .rB,     .rA,   .rA, .rI, .rI, .rI,   .quick 1,
    .indImm, .indImm, .indB, .rA, .rI, .rI, .rI,   .quick 2,
    .rA,     .rB,     .rI,   .rA, .rA, .rB, .rF,   .quick 3,
    .indS,   .indS,   .rI,   .rA, .rA, .rB, .indS, .quick 4,
    .rA,     .rB,     .rI,   .rA, .rA, .rB, .rF,   .quick 5,
    .rA,     .rA,     .rA,   .rA, .rA, .rA, .rA,   .quick 6,
    .rA,     .rA,     .rA,   .rA, .rA, .rA, .rA,   .quick 7 ]

/-- `Machine.set`: latch a value into a memory location, a named register or
a flag.  `value &= 077` is written as `% 64`; writes to PROM addresses are
silently dropped unless `prom` is given; writes to the ports cell are masked
by the direction register. -/
def set (m : Machine) (address : Addr) (value : Int) (prom : Bool) : Machine :=
  let value : Nat := (value % 64).toNat
  match address with
  | .C | .M | .Z =>
      let mask := FLAGS address
      let value := if value ≠ 0 then mask else 0
      -- self.registers[f] &= ~Machine.FLAGS[address]; self.registers[f] |= value
      let f := m.regF - (m.regF &&& mask)
      { m with regF := f ||| value }
  | .A => { m with regA := value }
  | .B => { m with regB := value }
  | .I => { m with regI := value }
  | .S => { m with regS := value }
  | .F => { m with regF := value }
  | .X => m
  | .mem a =>
      let address := ((a % 64).toNat)
      let value :=
        if address = PORTS then value &&& (m.memory.getD DIRECTIONS 0) else value
      -- (the source also executes `self.memory[address] |= self.memory[address]`
      --  on the ports cell, a self-OR with no effect)
      if address < PROM ∨ prom then { m with memory := m.memory.set address value }
      else m

/-- `Machine.get`: query a memory location, named register or flag. -/
def get (m : Machine) (address : Addr) : Nat :=
  match address with
  | .X => 0
  | .C | .M | .Z => if m.regF &&& FLAGS address ≠ 0 then 1 else 0
  | .A => m.regA
  | .B => m.regB
  | .I => m.regI
  | .S => m.regS
  | .F => m.regF
  | .mem a => m.memory.getD ((a % 64).toNat) 0

/-- Update the internal hardware clock and the two ticking ports. -/
def tick (m : Machine) : Machine :=
  let clock := m.clock
  let clock := clock >>> 3
  let m := m.set (.mem (TICKFAST : Int)) ((clock &&& 63 : Nat) : Int) false
  let clock := clock >>> 6
  let m := m.set (.mem (TICKSLOW : Int)) ((clock &&& 63 : Nat) : Int) false
  { m with clock := m.clock + 1 }

/-- The programmable input/output port logic.  `inp` is the byte the
overridable `Machine.inp()` hook would supply this step; the `out` and
`display` hooks are output-only and dropped here.
`(~outputs) & 077` is written as `63 - (outputs &&& 63)`. -/
def io (m : Machine) (inp : Nat) : Machine :=
  let outputs := m.memory.getD DIRECTIONS 0
  let inputs := 63 - (outputs &&& 63)
  let value := (m.memory.getD PORTS 0) &&& outputs
  let value := value ||| (inp &&& inputs)
  { m with memory := m.memory.set PORTS value }

/-- Retrieve the byte at address `I`, then increment `I`. -/
def fetch (m : Machine) : Nat × Machine :=
  let i := m.get .I
  let byte := m.get (.mem (i : Int))
  (byte, m.set .I ((i : Int) + 1) false)

/-- Determine the effective address for a table mode, following any
indirection.  The `'_'` and `'[_]'` modes are resolved by `execute` before
it calls `locate`, so those arms are dead here (mirroring the source, whose
`locate` only ever receives them from the source-operand path that
`execute` special-cases). -/
def locate (m : Machine) (address : Mode) : Addr :=
  match address with
  | .indS => .mem (m.get .S : Int)
  | .indB => .mem (m.get .B : Int)
  | .rA => .A
  | .rB => .B
  | .rI => .I
  | .rF => .F
  | .fC => .C
  | .fM => .M
  | .fZ => .Z
  | .quick n => .mem (n : Int)
  | .X => .X
  | .imm => .X
  | .indImm => .X

/-- Set the flags according to a register result.  The source's bit tests on
the (possibly negative, pre-mask) result are rendered as range tests:
`value & 077 == 0` is `value % 64 = 0`; for the short-circuited second
disjuncts, `value & 0040` is `32 ≤ value % 64` and `value & 0300` is
`64 ≤ value % 256` (equivalent on every integer). -/
def flag (m : Machine) (value : Int) : Machine :=
  -- self.set('Z', not (value & 077))
  let m := m.set .Z (if value % 64 = 0 then 1 else 0) false
  -- self.set('M', (value < 0) or (value & 0040))
  let m := m.set .M (if value < 0 ∨ 32 ≤ value % 64 then 1 else 0) false
  -- self.set('C', (value < 0) or (value & 0300))
  m.set .C (if value < 0 ∨ 64 ≤ value % 256 then 1 else 0) false

/-- The flag register consulted by a conditional jump: `opclass[-1:].upper()`. -/
def condFlag (opclass : String) : Addr :=
  match opclass.toList.getLast? with
  | some 'c' => .C
  | some 'm' => .M
  | some 'z' => .Z
  | _ => .X

/-- The operation classes after which `operate` recomputes the flags. -/
def FLAGGED : List String :=
  ["load", "clr", "add", "sub", "and", "or", "ror", "rol", "inc", "dec", "pop", "mov"]

/-- The value produced by `Machine.operate` just before the final
`value &= 077` mask and the flag update: the interior arithmetic of the
instruction.  Rotates and the logical operations act on register/operand
values, which are nonnegative six-bit quantities, so their bit operations
are computed on `value.toNat`. -/
def operateRaw (m : Machine) (opcode : Nat) (value : Int) : Int :=
  let a : Nat := m.get .A
  let c : Nat := m.get .C
  let opclass := OPCODES.getD opcode ""
  let value :=
    if opclass ∈ (["jc", "jnc", "jm", "jnm", "jz", "jnz"] : List String) then
      let flag : Bool := m.get (condFlag opclass) != 0
      -- if not 'n' in opclass: flag = not flag
      let flag : Bool := if opclass.toList.contains 'n' then flag else !flag
      if flag then (m.get .I : Int) else value
    else value
  let value := if opclass = "add" then (a : Int) + value + (c : Int) else value
  let value := if opclass = "sub" then (a : Int) - value - (c : Int) else value
  let value := if opclass = "and" then ((a &&& value.toNat : Nat) : Int) else value
  let value := if opclass = "or" then ((a ||| value.toNat : Nat) : Int) else value
  let value := if opclass = "inc" then value + 1 else value
  let value := if opclass = "dec" then value - 1 else value
  -- ror: (value >> 1) | ((value & 001) << 6) | (c << 5)
  let value :=
    if opclass = "ror" then
      (((value.toNat >>> 1) ||| ((value.toNat &&& 0o01) <<< 6) ||| (c <<< 5) : Nat) : Int)
    else value
  -- rol: (value << 1) | ((value & 040) << 6) | (c)
  let value :=
    if opclass = "rol" then
      (((value.toNat <<< 1) ||| ((value.toNat &&& 0o40) <<< 6) ||| c : Nat) : Int)
    else value
  value

/-- Perform the interior logic for an arithmetic or branching operation,
returning the updated machine and the masked result value.  The `call`
class pushes the current `I` to the stack cell; it only writes memory, so
reading the registers before or after it is equivalent and `operateRaw`
reads from the incoming machine exactly as the source reads them at the
top of `operate`. -/
def operate (m : Machine) (opcode : Nat) (value : Int) : Machine × Int :=
  let opclass := OPCODES.getD opcode ""
  -- if opclass == 'call': self.set(self.get('S'), self.get('I'))
  let m1 := if opclass = "call" then m.set (.mem (m.get .S : Int)) ((m.get .I : Nat) : Int) false else m
  let value := m.operateRaw opcode value
  let m2 := if opclass ∈ FLAGGED then m1.flag value else m1
  -- value &= 077
  (m2, value % 64)

/-- `None`-defaulting read of the optional trailing operand byte.  The
source leaves `operand = None` for opcodes outside `IMMEDIATES`, and the
decode tables guarantee such opcodes never consult it. -/
def opval : Option Nat → Nat
  | some v => v
  | none => 0

/-- Update the whole machine state for one instruction. -/
def execute (m : Machine) (opcode : Nat) (operand : Option Nat) : Machine :=
  -- predecrement stack for pushes
  let m := if opcode ∈ PUSHES then m.set .S ((m.get .S : Int) - 1) false else m
  -- retrieve our value
  let source := SOURCES.getD opcode .X
  let value : Int :=
    match source with
    | .imm => (opval operand : Int)
    | .indImm => (m.get (.mem (opval operand : Int)) : Int)
    | s => (m.get (m.locate s) : Int)
  -- perform operation on value alone
  let (m, value) := m.operate opcode value
  -- commit our value
  let target := TARGETS.getD opcode .X
  let m :=
    match target with
    | .imm => m  -- the source raises here; TARGETS contains no '_' entry, so this arm is dead
    | .indImm => m.set (.mem (opval operand : Int)) value false
    | t => m.set (m.locate t) value false
  -- postincrement base for base access
  let m := if opcode ∈ BASES then m.set .B ((m.get .B : Int) + 1) false else m
  -- postincrement stack for pops
  if opcode ∈ POPS then m.set .S ((m.get .S : Int) + 1) false else m

/-- Checks if a STOP instruction has been encountered. -/
def stopped (m : Machine) : Bool :=
  m.get (.mem (m.get .I : Int)) == STOP

/-- Fetch the full instruction and execute it; `false` means the machine
was already stopped and nothing was fetched or mutated. -/
def step (m : Machine) (inp : Nat) : Bool × Machine :=
  if m.stopped then (false, m)
  else
    let (opcode, m) := m.fetch
    let (operand, m) :=
      if opcode ∈ IMMEDIATES then
        let (b, m) := m.fetch
        ((some b : Option Nat), m)
      else ((none : Option Nat), m)
    let m := m.execute opcode operand
    let m := m.tick
    let m := m.io inp
    (true, m)

/-- Execute instructions until a STOP instruction is encountered or the
step budget runs out (`run(limit)`); `inp` supplies the input-port byte
for each step, indexed by the remaining budget. -/
def run (inp : Nat → Nat) : Nat → Machine → Bool × Machine
  | limit, m =>
      match m.step (inp limit) with
      | (false, m) => (true, m)
      | (true, m) =>
          match limit with
          | 0 => (false, m)
          | limit + 1 => run inp limit m

/-- Reset all registers to stable known values (`RESET`), zero the clock,
and run one tick/io pass, as `Machine.reset` does. -/
def reset (m : Machine) (inp : Nat) : Machine :=
  let m := m.set .A 0 false
  let m := m.set .B 0 false
  let m := m.set .I (PROM : Int) false
  let m := m.set .S (STACK : Int) false
  let m := m.set .F 0 false
  let m := { m with clock := 0 }
  let m := m.tick
  m.io inp

/-- Burn a byte image (an OSCII string) into the PROM area. -/
def prom (m : Machine) (rom : List Char) : Machine :=
  ((rom.take PROMLEN).enum).foldl
    (fun m ic => m.set (.mem ((ic.1 + PROM : Nat) : Int)) (((ENCODING ic.2).getD 0 : Nat) : Int) true)
    m

end Machine

/-! ## Assembler

The assembler is a line-oriented scanner over the source text.  Python
string operations are rendered as structural functions over `List Char`.
Places where the Python would raise an uncaught exception (`KeyError` from
`ENCODING[char]`, `IndexError` from indexing an empty token list,
`TypeError` from formatting a failed literal parse) are modelled with
`Except Crash`. -/

/-- The exceptions the Python assembler can raise and never catches. -/
inductive Crash where
  | keyError (c : Char)
  | typeError
  | indexError
deriving DecidableEq, Repr

/-- A cell of the program image under construction: a resolved byte or a
deferred `&label` symbolic reference. -/
inductive Cell where
  | byte (b : Nat)
  | ref (label : String)
deriving DecidableEq, Repr

/-- `str.strip()`. -/
def stripChars (l : List Char) : List Char :=
  ((l.dropWhile Char.isWhitespace).reverse.dropWhile Char.isWhitespace).reverse

/-- `str.split(sep)` for a single-character separator, keeping empty pieces. -/
def splitChar (sep : Char) : List Char → List (List Char)
  | [] => [[]]
  | c :: cs =>
      let r := splitChar sep cs
      if c = sep then [] :: r
      else
        match r with
        | [] => [[c]]
        | w :: ws => (c :: w) :: ws

/-- `str.replace(old, new)` for the three-character quote-protection
patterns of `Assembler.instruction` (left-to-right, non-overlapping). -/
def replace3 (p1 p2 p3 r1 r2 r3 : Char) : List Char → List Char
  | [] => []
  | [a] => [a]
  | [a, b] => [a, b]
  | a :: b :: c :: rest =>
      if a = p1 ∧ b = p2 ∧ c = p3 then r1 :: r2 :: r3 :: replace3 p1 p2 p3 r1 r2 r3 rest
      else a :: replace3 p1 p2 p3 r1 r2 r3 (b :: c :: rest)

/-- `str.replace(old, new)` for single characters. -/
def replaceChar (a b : Char) : List Char → List Char :=
  List.map (fun c => if c = a then b else c)

/-- ASCII `str.lower()` / `str.upper()`. -/
def lowerChar (c : Char) : Char :=
  if 'A' ≤ c ∧ c ≤ 'Z' then Char.ofNat (c.toNat + 32) else c

def upperChar (c : Char) : Char :=
  if 'a' ≤ c ∧ c ≤ 'z' then Char.ofNat (c.toNat - 32) else c

def lowerStr (l : List Char) : List Char := l.map lowerChar

def upperStr (l : List Char) : List Char := l.map upperChar

/-- Character classes of the `IDENTIFIER` regex `[a-zA-Z_][a-zA-Z0-9_]*`. -/
def isIdentStart (c : Char) : Bool := c.isAlpha || c = '_'

def isIdentChar (c : Char) : Bool := c.isAlphanum || c = '_'

def isOctalDigit (c : Char) : Bool := '0' ≤ c ∧ c ≤ '7'

/-- Longest-prefix identifier match. -/
def parseIdent : List Char → Option (List Char × List Char)
  | [] => none
  | c :: rest =>
      if isIdentStart c then
        some (c :: rest.takeWhile isIdentChar, rest.dropWhile isIdentChar)
      else none

/-- Prefix match of the (non-greedy) `QUOTED` regex `'.*?'|".*?"`: a quote
character followed by the shortest run of characters up to its repeat. -/
def parseQuotedTok (l : List Char) : Option (List Char × List Char) :=
  match l with
  | [] => none
  | c :: rest =>
      if c = squote ∨ c = dquote then
        let body := rest.takeWhile (fun d => d ≠ c)
        match rest.drop body.length with
        | d :: rest2 => some (c :: body ++ [d], rest2)
        | [] => none
      else none

/-- Prefix match of `LITERAL = OCTAL|QUOTED` (`[0o]([0-7]+)` or a quoted
string), as used by the `:name=value` line regex. -/
def parseLiteralTok (l : List Char) : Option (List Char × List Char) :=
  match l with
  | [] => none
  | c :: rest =>
      if c = '0' ∨ c = 'o' then
        let ds := rest.takeWhile isOctalDigit
        if ds = [] then parseQuotedTok l
        else some (c :: ds, rest.drop ds.length)
      else parseQuotedTok l

def octalValue (ds : List Char) : Nat :=
  ds.foldl (fun acc c => acc * 8 + (c.toNat - 48)) 0

def decimalValue (ds : List Char) : Nat :=
  ds.foldl (fun acc c => acc * 10 + (c.toNat - 48)) 0

/-- The assembler state accumulated over one assembly: label table,
diagnostics, listing, program image, published image.  `touched` is ghost
instrumentation recording which image cells `apply` has written; it is
appended to alongside every `code` update and read by nothing. -/
structure Assembler where
  labels : List (String × Nat)
  errors : List String
  listing : List String
  code : List Cell
  encoded : String
  touched : List Nat
deriving DecidableEq, Repr

/-- Python dict lookup on the label table. -/
def lookupLabel (ls : List (String × Nat)) (k : String) : Option Nat :=
  match ls.find? (fun p => p.1 = k) with
  | some p => some p.2
  | none => none

/-- Python dict assignment on the label table. -/
def setLabel (ls : List (String × Nat)) (k : String) (v : Nat) : List (String × Nat) :=
  if (ls.find? (fun p => p.1 = k)).isSome then
    ls.map (fun p => if p.1 = k then (k, v) else p)
  else ls ++ [(k, v)]

namespace Assembler

/-- Fresh assembler: empty tables, the image pre-filled with STOP bytes. -/
def init : Assembler :=
  { labels := [], errors := [], listing := [],
    code := List.replicate Machine.PROMLEN (Cell.byte Machine.STOP),
    encoded := "", touched := [] }

/-- `'%02o' % n`. -/
def octal2 (n : Nat) : String :=
  let ds := Nat.toDigits 8 n
  String.mk (if ds.length < 2 then '0' :: ds else ds)

/-- `'%-Ns' % s`. -/
def padRight (s : String) (n : Nat) : String :=
  s ++ String.mk (List.replicate (n - s.length) ' ')

/-- Log a program listing line, giving the address when supplied. -/
def log (a : Assembler) (line : String) (address : Option Nat) : Assembler :=
  match address with
  | some addr => { a with listing := a.listing ++ ["@" ++ octal2 addr ++ "| " ++ line] }
  | none => { a with listing := a.listing ++ ["   | " ++ line] }

/-- Log an error; does not stop the assembly process.  `self.source` is the
constant `'input'` when assembling a supplied list of lines. -/
def error (a : Assembler) (line : Nat) (tier message : String) : Assembler :=
  { a with errors := a.errors ++ ["input(" ++ Nat.repr line ++ "): " ++ tier ++ ": " ++ message] }

/-- `Assembler.immediate` (with its `labels` flag at the scanner's fixed
`False`): parse one argument word into a byte value or a deferred `&label`
reference. -/
def immediate (word : String) : Option Cell :=
  let l := word.toList
  -- ADDRESS: '&' IDENTIFIER '$' — returns the bare label name
  let isAddr : Bool :=
    match l with
    | '&' :: c :: rest => isIdentStart c && rest.all isIdentChar
    | _ => false
  if isAddr then
    some (.ref (String.mk (l.drop 1)))
  else
    -- OCTAL: [0o]([0-7]+)$
    (match l with
     | c :: rest =>
         if (c = '0' ∨ c = 'o') ∧ rest ≠ [] ∧ rest.all isOctalDigit then
           some (.byte (octalValue rest))
         -- single digit: [0-7]$
         else if rest = [] ∧ isOctalDigit c then
           some (.byte (octalValue [c]))
         -- DECIMAL: d([0-9]+)$
         else if c = 'd' ∧ rest ≠ [] ∧ rest.all Char.isDigit then
           some (.byte (decimalValue rest))
         -- QUOTED$ with a single enclosed character, via ENCODING
         else if (c = squote ∨ c = dquote) ∧ rest ≠ [] ∧ rest.getLast? = some c then
           let inner := rest.dropLast
           if inner.length = 1 then
             match ENCODING (inner.headD ' ') with
             | some b => some (.byte b)
             | none => none
           else none
         else none
     | [] => none)

/-- The operand-shape tables used by the reverse instruction match. -/
def OPERANDS : List String :=
  [ "A", "B", "_", "", "C", "M", "Z", "",
    "A", "B", "A", "", "_", "_", "_", "",
    "A", "B", "A", "", "_", "_", "_", "",
    "A", "B", "",  "", "A", "B", "F", "",
    "A", "B", "_", "", "A", "B", "F", "",
    "A", "B", "",  "", "A", "B", "F", "",
    "A", "A", "A", "", "A", "A", "A", "",
    "A", "A", "A", "", "A", "A", "A", "" ]

def DIRECTANDS : List String :=
  [ "",    "",    "",    "", "",  "",  "",    "",
    "[_]", "[_]", "[B]", "", "",  "",  "",    "",
    "[_]", "[_]", "[B]", "", "",  "",  "",    "",
    "",    "",    "",    "", "",  "",  "",    "",
    "",    "",    "",    "", "",  "",  "",    "",
    "B",   "A",   "",    "", "_", "_", "_",   "",
    "_",   "B",   "[B]", "", "_", "B", "[B]", "",
    "_",   "B",   "[B]", "", "_", "B", "[B]", "" ]

def SYNONYMS : List (String × String) :=
  [("clear", "clr"), ("store", "save"), ("sto", "save"), ("pull", "pop"),
   ("move", "load"), ("mov", "load"), ("return", "ret"), ("halt", "stop")]

/-- Tokenization of one instruction line: quote-protect spaces and commas,
split on blanks and commas, drop empties, restore protected commas. -/
def instructionWords (line : String) : List (List Char) :=
  let l := stripChars line.toList
  let l := replace3 dquote ' ' dquote dquote '_' dquote l
  let l := replace3 squote ' ' squote squote '_' squote l
  let l := replace3 dquote ',' dquote dquote '`' dquote l
  let l := replace3 squote ',' squote squote '`' squote l
  let ws := (splitChar ' ' l).map (splitChar ',')
  let ws := ws.flatten
  (ws.filter (fun w => w ≠ [])).map (replaceChar '`' ',')

/-- One iteration of the opcode-matching loop of `Assembler.instruction`
for a single candidate `opcode`; `.ok none` is the loop's `continue`. -/
def instrTry (opclass : String) (words : List (List Char)) (opcode : Nat) :
    Except Crash (Option (List Cell)) :=
  if opclass ≠ OPCODES.getD opcode "" then .ok none
  else
    match words with
    | [_] =>
        if OPERANDS.getD opcode "" ≠ "" then .ok none
        else .ok (some [Cell.byte opcode])
    | [_, left] =>
        if OPERANDS.getD opcode "" = "" then .ok none
        else if OPERANDS.getD opcode "" = "_" then
          match immediate (String.mk (replaceChar '_' ' ' left)) with
          | none => .ok none
          | some v => .ok (some [Cell.byte opcode, v])
        else if String.mk (upperStr left) = OPERANDS.getD opcode "" then
          .ok (some [Cell.byte opcode])
        else .ok none
    | [_, left, right0] =>
        if OPERANDS.getD opcode "" = "" then .ok none
        else if DIRECTANDS.getD opcode "" = "" then .ok none
        else
          let right := right0.filter (fun c => c ≠ '+')
          if String.mk (upperStr left) ≠ OPERANDS.getD opcode "" then .ok none
          else if DIRECTANDS.getD opcode "" = "_" then
            match immediate (String.mk (replaceChar '_' ' ' right)) with
            | none => .ok none
            | some v => .ok (some [Cell.byte opcode, v])
          else if DIRECTANDS.getD opcode "" = "[_]" then
            match right with
            | [] => .error .indexError  -- right[0] on an empty operand
            | c :: _ =>
                if c = '[' then
                  match immediate (String.mk (replaceChar '_' ' ' ((right.drop 1).dropLast))) with
                  | none => .ok none
                  | some v => .ok (some [Cell.byte opcode, v])
                else if String.mk (upperStr right) = DIRECTANDS.getD opcode "" then
                  .ok (some [Cell.byte opcode])
                else .ok none
          else if String.mk (upperStr right) = DIRECTANDS.getD opcode "" then
            .ok (some [Cell.byte opcode])
          else .ok none
    | _ => .ok none

def instrLoop (opclass : String) (words : List (List Char)) :
    List Nat → Except Crash (Option (List Cell))
  | [] => .ok none
  | op :: ops =>
      match instrTry opclass words op with
      | .error e => .error e
      | .ok (some enc) => .ok (some enc)
      | .ok none => instrLoop opclass words ops

/-- `Assembler.instruction`: the encoding of one instruction line, `none`
for an unparseable line, tried against all 64 opcodes in order. -/
def instruction (line : String) : Except Crash (Option (List Cell)) :=
  let words := instructionWords line
  match words with
  | [] => .error .indexError  -- words[0] on an all-separator line
  | w0 :: _ =>
      let opclass := String.mk (lowerStr w0)
      let opclass :=
        match (SYNONYMS.find? (fun p => p.1 = opclass)) with
        | some p => p.2
        | none => opclass
      instrLoop opclass (words.map stripChars) (List.range 0o100)

/-- `self.dump(encoding)`: friendly octal/symbol format of encoded bytes. -/
def dump (encoding : List Cell) : String :=
  String.intercalate ", " (encoding.map (fun c =>
    match c with
    | .ref s => "&" ++ s
    | .byte b => "o" ++ octal2 b))

/-- Inject the encoded bytes of one statement into the PROM image
(`for byte in encoding:`), bounds-checking each byte and advancing the
placement address. -/
def apply (a : Assembler) (address : Nat) (encoding : List Cell) (lineno : Nat) :
    Assembler × Nat :=
  match encoding with
  | [] => (a, address)
  | byte :: rest =>
      if address < Machine.PROM ∨ Machine.PROM + Machine.PROMLEN ≤ address then
        apply (a.error lineno "Error" "Code address is outside PROM space.")
          address rest lineno
      else
        apply { a with code := a.code.set (address - Machine.PROM) byte,
                       touched := a.touched ++ [address - Machine.PROM] }
          ((address + 1) % 0o100) rest lineno

/-- The literal-data scanning loop (`while line:` over a `= '...'` body).
`some q` means the scan is inside a `q`-quoted string; because the closing
quote is not consumed by the inner loop and immediately re-opens a string
of the same quote character, closing and reopening collapse to staying in
the quoted state.  Unencodable characters hit `ENCODING[char]` and raise. -/
def literalGo (count : Nat) (a : Assembler) :
    Option Char → List Char → List Nat → Except Crash (Assembler × List Nat)
  | _, [], acc => .ok (a, acc)
  | some q, c :: rest, acc =>
      if c = q then literalGo count a (some q) rest acc
      else
        match ENCODING c with
        | none => .error (.keyError c)
        | some b => literalGo count a (some q) rest (acc ++ [b])
  | none, c :: rest, acc =>
      if c = ' ' ∨ c = '\t' then literalGo count a none rest acc
      else if c = squote ∨ c = dquote then literalGo count a (some c) rest acc
      else
        .ok (a.error count "Error" ("Could not parse literal data: " ++ String.mk (c :: rest)), acc)

/-- The scan-loop state threaded across source lines. -/
structure ScanState where
  asm : Assembler
  address : Nat
  home : Bool
  count : Nat
deriving DecidableEq, Repr

/-- `:name=LITERAL` line match (`re.match`, so trailing garbage is ignored). -/
def parseAbsLabel (l : List Char) : Option (String × String) :=
  match l with
  | ':' :: rest =>
      match parseIdent rest with
      | some (name, rest2) =>
          match rest2 with
          | '=' :: rest3 =>
              match parseLiteralTok rest3 with
              | some (lit, _) => some (String.mk name, String.mk lit)
              | none => none
          | _ => none
      | none => none
  | _ => none

/-- `:name` line match (again a prefix match). -/
def parseLabel (l : List Char) : Option String :=
  match l with
  | ':' :: rest => (parseIdent rest).map (fun p => String.mk p.1)
  | _ => none

/-- The `:name=value` branch of the scan loop: warn on redefinition, bind
the label, and move the placement address to the literal value. -/
def scanAbs (count : Nat) (home : Bool) (asm : Assembler) (label lit : String) :
    Except Crash ScanState :=
  let asm :=
    if (lookupLabel asm.labels label).isSome then
      asm.error count "Warning" ("Redefining label :" ++ label)
    else asm
  match immediate lit with
  | some (.byte v) =>
      let asm := { asm with labels := setLabel asm.labels label v }
      .ok { asm := asm.log (":" ++ padRight label 15 ++ "=o" ++ octal2 v ++ " ;") (some v),
            address := v, home := home, count := count }
  | _ => .error .typeError  -- '%02o' % None (or a string) raises

/-- The `:name` branch of the scan loop: warn on redefinition and bind the
label to the current address. -/
def scanNormal (count address : Nat) (asm : Assembler) (label : String) : ScanState :=
  let asm :=
    if (lookupLabel asm.labels label).isSome then
      asm.error count "Warning" ("Redefining label :" ++ label)
    else asm
  let asm := { asm with labels := setLabel asm.labels label address }
  { asm := asm.log (":" ++ padRight label 19 ++ " ;") (some address),
    address := address, home := true, count := count }

/-- The instruction branch of the scan loop: log the listing line and
apply the encoded bytes at the current address. -/
def scanInstr (count address : Nat) (home : Bool) (asm : Assembler)
    (line : List Char) (encoding : List Cell) : ScanState :=
  let text := dump encoding
  let asm := asm.log ("   " ++ padRight (String.mk (line.take 20)) 17 ++ " ; " ++ text)
    (some address)
  let applied := asm.apply address encoding count
  { asm := applied.1, address := applied.2, home := home, count := count }

/-- The `=` literal-data branch of the scan loop. -/
def scanLiteral (count address : Nat) (home : Bool) (asm : Assembler) (line : List Char) :
    Except Crash ScanState :=
  let original := stripChars (line.drop 1)
  match literalGo count asm none original [] with
  | .error e => .error e
  | .ok (asm, encoding) =>
      if encoding ≠ [] then
        let text := dump (encoding.map Cell.byte)
        let asm := asm.log ("   " ++ padRight (String.mk (original.take 17)) 17 ++ " ; " ++ text)
          (some address)
        let applied := asm.apply address (encoding.map Cell.byte) count
        .ok { asm := applied.1, address := applied.2, home := home, count := count }
      else .ok { asm := asm, address := address, home := home, count := count }

/-- Process one line of the assembly-source loop of `Assembler.assemble`:
skip blanks, log comments, auto-define `home`, then try the label forms,
an instruction, and literal data, in the source order. -/
def scanLine (ss : ScanState) (rawLine : String) : Except Crash ScanState :=
  let count := ss.count + 1
  let line := stripChars rawLine.toList
  if line = [] then .ok { ss with count := count }
  else if line.headD ' ' = ';' then
    .ok { ss with count := count, asm := ss.asm.log (String.mk line) none }
  else
    -- define the implicit 'home' label ahead of the first non-label statement
    let pair :=
      if ¬ ss.home ∧ line.headD ' ' ≠ ':' then
        let a := { ss.asm with labels := setLabel ss.asm.labels "home" ss.address }
        (a.log (":" ++ padRight "home" 19 ++ " ;") (some ss.address), true)
      else (ss.asm, ss.home)
    let asm := pair.1
    let home := pair.2
    match parseAbsLabel line with
    | some (label, lit) => scanAbs count home asm label lit
    | none =>
    match parseLabel line with
    | some label => .ok (scanNormal count ss.address asm label)
    | none =>
    match instruction (String.mk line) with
    | .error e => .error e
    | .ok (some encoding) => .ok (scanInstr count ss.address home asm line encoding)
    | .ok none =>
    if line.headD ' ' = '=' then scanLiteral count ss.address home asm line
    else
      .ok { asm := asm.error count "Error" ("Could not parse line: " ++ String.mk line),
            address := ss.address, home := home, count := count }

def scanLines : ScanState → List String → Except Crash ScanState
  | ss, [] => .ok ss
  | ss, l :: ls =>
      match scanLine ss l with
      | .error e => .error e
      | .ok ss => scanLines ss ls

/-- The fix-up-relocations loop at the end of `Assembler.assemble`:
resolve every symbolic cell through the label table, substituting a zero
byte and logging an error for labels never defined, while building the
OSCII-encoded image string. -/
def fixupGo (count : Nat) (a : Assembler) (acc : List Char) :
    List Cell → Except Crash (Assembler × List Char)
  | [] => .ok (a, acc)
  | cell :: cells =>
      match cell with
      | .byte b =>
          if b < 0o100 then fixupGo count a (acc ++ [OSCII.getD b ' ']) cells
          else .error .indexError  -- OSCII[byte] out of range
      | .ref label =>
          match lookupLabel a.labels label with
          | none =>
              let a := a.error count "Error" ("Never resolved address: &" ++ label)
              fixupGo count a (acc ++ [OSCII.getD 0 ' ']) cells
          | some v =>
              if v < 0o100 then fixupGo count a (acc ++ [OSCII.getD v ' ']) cells
              else .error .indexError

/-- The tail of `Assembler.assemble` after the scan loop: run the fix-up
pass over the accumulated image, then publish the encoded image into
`self.encoded` only when the diagnostics list is empty.  The encoded
string is returned either way. -/
def finish (count : Nat) (a : Assembler) : Except Crash (Assembler × String) :=
  match fixupGo count a [] a.code with
  | .error e => .error e
  | .ok (a, chars) =>
      let encoded := String.mk chars
      let a := if a.errors = [] then { a with encoded := encoded } else a
      .ok (a, encoded)

/-- `Assembler.assemble` on a list of source lines: scan every line, fix up
relocations, publish. -/
def assemble (lines : List String) : Except Crash (Assembler × String) :=
  match scanLines { asm := Assembler.init, address := Machine.PROM, home := false, count := 0 } lines with
  | .error e => .error e
  | .ok ss => finish ss.count ss.asm

end Assembler

/-! ## Shared proof infrastructure -/

/-- A concrete machine with zeroed memory and registers. -/
def M0 : Machine := ⟨List.replicate 64 0, 0, 0, 0, 0, 0, 0⟩

lemma getD_set_of_ne {α : Type} (l : List α) (i j : Nat) (x d : α) (h : i ≠ j) :
    (l.set i x).getD j d = l.getD j d := by
  simp [List.getD_eq_getElem?_getD, List.getElem?_set_ne h]

lemma getD_set_self {α : Type} (l : List α) (i : Nat) (x d : α) (h : i < l.length) :
    (l.set i x).getD i d = x := by
  simp [List.getD_eq_getElem?_getD, List.getElem?_set_self, h]

lemma if_one_eq_one (p : Prop) [Decidable p] : ((if p then (1 : Nat) else 0) = 1) ↔ p := by
  split <;> simp_all

lemma getC_le_one (m : Machine) : m.get .C ≤ 1 := by
  simp only [Machine.get]
  split <;> omega

/-- One flag-bit update of the packed `F` bitfield:
`registers[f] &= ~mask; registers[f] |= (mask when the condition holds)`. -/
def setBit (f mask : Nat) (b : Bool) : Nat :=
  (f - (f &&& mask)) ||| (if b then mask else 0)

/-- The packed `F` bitfield after the three updates of `Machine.flag`. -/
def flagWord (f : Nat) (v : Int) : Nat :=
  setBit (setBit (setBit f 1 (decide (v % 64 = 0))) 2 (decide (v < 0 ∨ 32 ≤ v % 64)))
    4 (decide (v < 0 ∨ 64 ≤ v % 256))

/-- `Machine.flag` as three explicit flag-bit updates of `F`. -/
lemma flag_eq (m : Machine) (v : Int) :
    m.flag v = { m with regF := flagWord m.regF v } := by
  by_cases h0 : v % 64 = 0 <;> by_cases hneg : v < 0 <;>
    by_cases h64 : 32 ≤ v % 64 <;> by_cases h256 : 64 ≤ v % 256 <;>
      simp [Machine.flag, Machine.set, setBit, flagWord, Machine.FLAGS,
        h0, hneg, h64, h256]

/-- Reading back the three bits written by the flag updates. -/
lemma setBit3_get :
    ∀ f < 64, ∀ b1 b2 b3 : Bool,
      ((setBit (setBit (setBit f 1 b1) 2 b2) 4 b3 &&& 1 ≠ 0) ↔ b1 = true)
    ∧ ((setBit (setBit (setBit f 1 b1) 2 b2) 4 b3 &&& 2 ≠ 0) ↔ b2 = true)
    ∧ ((setBit (setBit (setBit f 1 b1) 2 b2) 4 b3 &&& 4 ≠ 0) ↔ b3 = true)
    ∧ setBit (setBit (setBit f 1 b1) 2 b2) 4 b3 < 64 := by decide

/-- Reading the flags after `Machine.flag value`: each flag is the 0/1
rendering of its defining condition, and the rest of the machine state is
untouched. -/
lemma get_flag (m : Machine) (hF : m.regF < 64) (v : Int) :
    ((m.flag v).get .Z = if v % 64 = 0 then 1 else 0)
  ∧ ((m.flag v).get .M = if v < 0 ∨ 32 ≤ v % 64 then 1 else 0)
  ∧ ((m.flag v).get .C = if v < 0 ∨ 64 ≤ v % 256 then 1 else 0)
  ∧ (m.flag v).regA = m.regA ∧ (m.flag v).regB = m.regB
  ∧ (m.flag v).regI = m.regI ∧ (m.flag v).regS = m.regS
  ∧ (m.flag v).memory = m.memory ∧ (m.flag v).regF < 64 := by
  obtain ⟨hb1, hb2, hb3, hlt⟩ :=
    setBit3_get m.regF hF (decide (v % 64 = 0)) (decide (v < 0 ∨ 32 ≤ v % 64))
      (decide (v < 0 ∨ 64 ≤ v % 256))
  rw [flag_eq]
  refine ⟨?_, ?_, ?_, rfl, rfl, rfl, rfl, rfl, hlt⟩
  · simp only [Machine.get, Machine.FLAGS, flagWord, hb1, decide_eq_true_eq]
  · simp only [Machine.get, Machine.FLAGS, flagWord, hb2, decide_eq_true_eq]
  · simp only [Machine.get, Machine.FLAGS, flagWord, hb3, decide_eq_true_eq]

/-- `a &&& b` and `a ||| b` of six-bit values are six-bit values. -/
lemma orBound : ∀ x < 64, ∀ y < 64, x ||| y < 64 := by decide

lemma rorBound : ∀ n < 64, ∀ c < 2,
    (64 ≤ ((n >>> 1) ||| ((n % 2) <<< 6) ||| (c <<< 5)) % 256 ↔
      64 ≤ ((n >>> 1) ||| ((n % 2) <<< 6) ||| (c <<< 5))) := by decide

lemma rolBound : ∀ n < 64, ∀ c < 2,
    (64 ≤ ((n <<< 1) ||| ((n &&& 32) <<< 6) ||| c) % 256 ↔
      64 ≤ ((n <<< 1) ||| ((n &&& 32) <<< 6) ||| c)) := by decide

/-! ## Claim C1 -/

/-- A machine whose `B` register holds the six-bit maximum, used to refute
the pre-mask reading of the Zero flag. -/
def MB63 : Machine := ⟨List.replicate 64 0, 0, 63, 0, 0, 0, 0⟩

/-- C1 counterexample: incrementing `B = 63` (opcode 0o35, class `inc`,
which affects flags) produces the pre-mask result 64, which is nonzero,
yet `Machine.operate` sets the Zero flag to 1 — so "Zero is 1 exactly when
the pre-mask result equals 0" is false; the source tests `value & 077`. -/
theorem spec_C1_counterexample :
    MB63.operateRaw 0o35 63 = 64 ∧ (MB63.operate 0o35 63).1.get .Z = 1 := by decide

/-- C1 (amended): for every instruction whose class affects flags (load,
clear, arithmetic, logical, rotate, increment/decrement, pop), after
`Machine.operate` the Zero flag is 1 exactly when the result *reduced to
six bits* equals 0, the Minus flag is 1 exactly when the result is
negative or has its 0o40 sign bit set, and the Carry flag is 1 exactly
when the result is negative or has some bit at or above 0o100 set (which
for a nonnegative integer is `64 ≤ result`). -/
theorem spec_C1_flags_amended (m : Machine) (opcode : Nat) (v : Int)
    (hA : m.get .A < 64) (hF : m.regF < 64)
    (hop : OPCODES.getD opcode "" ∈ Machine.FLAGGED)
    (hv0 : 0 ≤ v) (hv : v < 64) :
    ((m.operate opcode v).1.get .Z = 1 ↔ m.operateRaw opcode v % 64 = 0)
  ∧ ((m.operate opcode v).1.get .M = 1 ↔
      (m.operateRaw opcode v < 0 ∨ 32 ≤ m.operateRaw opcode v % 64))
  ∧ ((m.operate opcode v).1.get .C = 1 ↔
      (m.operateRaw opcode v < 0 ∨ 64 ≤ m.operateRaw opcode v)) := by
  have hCle : m.get .C ≤ 1 := getC_le_one m
  have hv' : v.toNat < 64 := by omega
  have hnc : OPCODES.getD opcode "" ≠ "call" := by
    intro h
    rw [h] at hop
    simp [Machine.FLAGGED] at hop
  have hm : (m.operate opcode v).1 = m.flag (m.operateRaw opcode v) := by
    simp only [Machine.operate, if_neg hnc, if_pos hop]
  obtain ⟨gz, gm, gc, -, -, -, -, -, -⟩ := get_flag m hF (m.operateRaw opcode v)
  rw [hm, gz, gm, gc, if_one_eq_one, if_one_eq_one, if_one_eq_one]
  refine ⟨Iff.rfl, Iff.rfl, ?_⟩
  simp only [Machine.FLAGGED, List.mem_cons, List.not_mem_nil, or_false] at hop
  rcases hop with h|h|h|h|h|h|h|h|h|h|h|h <;>
    simp only [Machine.operateRaw, h] <;> simp <;>
    first
      | omega
      | (have hand := Nat.and_le_left (n := m.get .A) (m := v.toNat); omega)
      | (have hor := orBound (m.get .A) hA v.toNat hv'; omega)
      | (have hror := rorBound v.toNat hv' (m.get .C) (by omega); omega)
      | (have hrol := rolBound v.toNat hv' (m.get .C) (by omega); omega)

/-- C1 witness: the amended statement at the counterexample input. -/
theorem spec_C1_flags_amended_witness :
    ((MB63.operate 0o35 63).1.get .Z = 1 ↔ MB63.operateRaw 0o35 63 % 64 = 0)
  ∧ ((MB63.operate 0o35 63).1.get .M = 1 ↔
      (MB63.operateRaw 0o35 63 < 0 ∨ 32 ≤ MB63.operateRaw 0o35 63 % 64))
  ∧ ((MB63.operate 0o35 63).1.get .C = 1 ↔
      (MB63.operateRaw 0o35 63 < 0 ∨ 64 ≤ MB63.operateRaw 0o35 63)) :=
  spec_C1_flags_amended MB63 0o35 63 (by decide) (by decide) (by decide)
    (by decide) (by decide)

/-! ## Claim C2 -/

/-- C2: whenever the memory cell addressed by `I` holds the STOP opcode,
`Machine.step` reports halted (`false`) and returns the machine unchanged:
no fetch and no mutation of memory, registers or clock. -/
theorem spec_C2_stop_halts (m : Machine) (inp : Nat)
    (h : m.get (.mem (m.get .I : Int)) = Machine.STOP) :
    m.step inp = (false, m) := by
  simp [Machine.step, Machine.stopped, h]

/-- C2 witness: a machine whose whole memory is STOP bytes. -/
theorem spec_C2_stop_halts_witness :
    (⟨List.replicate 64 0o52, 0, 0, 0o30, 0o20, 0, 0⟩ : Machine).step 0 =
      (false, ⟨List.replicate 64 0o52, 0, 0, 0o30, 0o20, 0, 0⟩) :=
  spec_C2_stop_halts _ 0 (by decide)

/-! ## Claim C3 -/

/-- Agreement of two machine states on every PROM cell. -/
def promIntact (m n : Machine) : Prop :=
  ∀ a, Machine.PROM ≤ a → a < 0o100 → n.memory.getD a 0 = m.memory.getD a 0

lemma promIntact_refl (m : Machine) : promIntact m m := fun _ _ _ => rfl

lemma promIntact_trans {m1 m2 m3 : Machine} (h1 : promIntact m1 m2)
    (h2 : promIntact m2 m3) : promIntact m1 m3 :=
  fun a ha hb => (h2 a ha hb).trans (h1 a ha hb)

/-- `Machine.set` without the `prom` override never changes a PROM cell:
register and flag writes do not touch memory at all, and memory writes are
either dropped (address in PROM) or land below the PROM boundary. -/
lemma set_promIntact (m : Machine) (addr : Addr) (v : Int) :
    promIntact m (m.set addr v false) := by
  intro a ha hb
  have h24 : (24 : Nat) ≤ a := ha
  cases addr
  case mem x =>
    simp only [Machine.set]
    by_cases hp : ((x % 64).toNat) < Machine.PROM
    · rw [if_pos (Or.inl hp)]
      exact getD_set_of_ne _ _ _ _ _ (by have hx : ((x % 64).toNat) < 24 := hp; omega)
    · rw [if_neg (by simp [hp])]
  all_goals rfl

/-- Direct assignments `self.memory[PORTS] = value` (from `io`) never
change a PROM cell. -/
lemma memset_ports_promIntact (m : Machine) (v : Nat) :
    promIntact m { m with memory := m.memory.set Machine.PORTS v } := by
  intro a ha hb
  have h24 : (24 : Nat) ≤ a := ha
  exact getD_set_of_ne _ _ _ _ _ (by simp only [Machine.PORTS]; omega)

lemma flag_promIntact (m : Machine) (v : Int) : promIntact m (m.flag v) :=
  promIntact_trans
    (promIntact_trans (set_promIntact m _ _) (set_promIntact _ _ _))
    (set_promIntact _ _ _)

lemma operate_promIntact (m : Machine) (opcode : Nat) (v : Int) :
    promIntact m (m.operate opcode v).1 := by
  unfold Machine.operate
  dsimp only
  repeat'
    first
      | exact promIntact_refl _
      | exact flag_promIntact _ _
      | exact set_promIntact _ _ _
      | exact promIntact_trans (set_promIntact _ _ _) (flag_promIntact _ _)
      | split

lemma execute_promIntact (m : Machine) (opcode : Nat) (operand : Option Nat) :
    promIntact m (m.execute opcode operand) := by
  unfold Machine.execute
  dsimp only
  repeat'
    first
      | exact promIntact_refl _
      | exact operate_promIntact _ _ _
      | refine promIntact_trans ?_ (set_promIntact _ _ _)
      | refine promIntact_trans (operate_promIntact _ _ _) (set_promIntact _ _ _)
      | split

lemma tick_promIntact (m : Machine) : promIntact m m.tick := by
  unfold Machine.tick
  dsimp only
  exact promIntact_trans (promIntact_trans (set_promIntact _ _ _) (set_promIntact _ _ _))
    (promIntact_refl _)

lemma io_promIntact (m : Machine) (inp : Nat) : promIntact m (m.io inp) := by
  unfold Machine.io
  dsimp only
  exact memset_ports_promIntact _ _

lemma fetch_promIntact (m : Machine) : promIntact m m.fetch.2 := by
  unfold Machine.fetch
  dsimp only
  exact set_promIntact _ _ _

lemma step_promIntact (m : Machine) (inp : Nat) : promIntact m (m.step inp).2 := by
  unfold Machine.step
  split
  · exact promIntact_refl _
  · dsimp only
    split
    · refine promIntact_trans (promIntact_trans ?_ (tick_promIntact _)) (io_promIntact _ _)
      refine promIntact_trans ?_ (execute_promIntact _ _ _)
      exact promIntact_trans (fetch_promIntact _) (fetch_promIntact _)
    · refine promIntact_trans (promIntact_trans ?_ (tick_promIntact _)) (io_promIntact _ _)
      refine promIntact_trans ?_ (execute_promIntact _ _ _)
      exact fetch_promIntact _

/-- C3: one `Machine.step` never changes a PROM cell (0o30–0o77): every
write performed during fetch/execute/tick/io goes through `Machine.set`
without the `prom` override (or targets the ports cell directly), so
running instructions can never modify PROM. -/
theorem spec_C3_prom_readonly (m : Machine) (inp : Nat) (a : Nat)
    (h1 : Machine.PROM ≤ a) (h2 : a < 0o100) :
    ((m.step inp).2).memory.getD a 0 = m.memory.getD a 0 :=
  step_promIntact m inp a h1 h2

/-- C3 witness: stepping the all-zero machine (a `clr A` instruction)
leaves the first PROM cell unchanged. -/
theorem spec_C3_prom_readonly_witness :
    ((M0.step 0).2).memory.getD 0o30 0 = M0.memory.getD 0o30 0 :=
  spec_C3_prom_readonly M0 0 0o30 (by decide) (by decide)

/-! ## Claim C4 -/

/-- C4 counterexample: the 6-bit round-trip `get (set v) = v & 077` fails
on PROM cells (the write is silently dropped without the `prom` override)
and on the ports cell (the value is masked by the direction register):
on the all-zero machine, writing 1 to cell 0o30 reads back 0, and writing
63 to cell 0o25 reads back 0. -/
theorem spec_C4_counterexample :
    ((M0.set (.mem 0o30) 1 false).get (.mem 0o30) = 0 ∧ ((1 : Int) % 64).toNat = 1)
  ∧ ((M0.set (.mem 0o25) 63 false).get (.mem 0o25) = 0 ∧ ((63 : Int) % 64).toNat = 63) := by
  decide

/-- C4 (amended): for every cell address below the PROM boundary other
than the ports cell 0o25, and every integer value `v`, `set` then `get`
returns `v & 0x3F`; PROM cells ignore the write without `prom := true`,
and the ports cell is further masked by the direction register. -/
theorem spec_C4_roundtrip_amended (m : Machine) (a : Nat) (v : Int)
    (hlen : m.memory.length = 64) (ha : a < Machine.PROM) (hport : a ≠ Machine.PORTS) :
    (m.set (.mem (a : Int)) v false).get (.mem (a : Int)) = (v % 64).toNat := by
  have ha24 : a < 24 := ha
  have hp21 : a ≠ 21 := hport
  have hmod : ((a : Int) % 64).toNat = a := by omega
  simp only [Machine.set, Machine.get, hmod]
  rw [if_neg hport, if_pos (Or.inl ha)]
  exact getD_set_self _ _ _ _ (by omega)

/-- C4 witness: the amended round-trip at cell 3 with value −1. -/
theorem spec_C4_roundtrip_amended_witness :
    (M0.set (.mem ((3 : Nat) : Int)) (-1) false).get (.mem ((3 : Nat) : Int)) =
      ((-1 : Int) % 64).toNat :=
  spec_C4_roundtrip_amended M0 3 (-1) (by decide) (by decide) (by decide)

/-! ## Claim C5 -/

/-- Load a value into `A` and execute `PUSH A` (opcode 0o40). -/
def pushA (m : Machine) (v : Nat) : Machine :=
  (m.set .A (v : Int) false).execute 0o40 none

/-- Push a list of values, first element first. -/
def pushAll (m : Machine) (vs : List Nat) : Machine := vs.foldl pushA m

/-- Execute `POP A` (opcode 0o30). -/
def popA (m : Machine) : Machine := m.execute 0o30 none

/-- `n` pops, returning the final machine and the popped values in popping
order (each read back from `A`). -/
def popAll : Nat → Machine → Machine × List Nat
  | 0, m => (m, [])
  | n + 1, m =>
      let m1 := popA m
      let r := popAll n m1
      (r.1, m1.regA :: r.2)

/-- Executing `PUSH A` pre-decrements `S` and stores `A` at the new `S`. -/
lemma pushA_spec (m : Machine) (v : Nat) (hv : v < 64) (hS1 : 1 ≤ m.regS)
    (hS2 : m.regS ≤ 16) :
    pushA m v = { m with regA := v, regS := m.regS - 1, memory := m.memory.set (m.regS - 1) v } := by
  have h1 : ((0o40 : Nat) ∈ Machine.PUSHES) := by decide
  have h2 : ¬((0o40 : Nat) ∈ Machine.BASES) := by decide
  have h3 : ¬((0o40 : Nat) ∈ Machine.POPS) := by decide
  have hsrc : Machine.SOURCES[(0o40 : Nat)]?.getD Mode.X = Mode.rA := by rfl
  have htgt : Machine.TARGETS[(0o40 : Nat)]?.getD Mode.X = Mode.indS := by rfl
  have hopc : OPCODES[(0o40 : Nat)]?.getD "" = "push" := by rfl
  have e1 : (((v : Nat) : Int) % 64).toNat = v := by omega
  have e2 : (((m.regS : Int) - 1) % 64).toNat = m.regS - 1 := by omega
  have e3 : (((m.regS - 1 : Nat) : Int) % 64).toNat = m.regS - 1 := by omega
  have e4 : ¬((m.regS - 1 : Nat) = Machine.PORTS) := by simp only [Machine.PORTS]; omega
  have e5 : (m.regS - 1 : Nat) < Machine.PROM := by simp only [Machine.PROM]; omega
  simp [pushA, Machine.execute, Machine.operate, Machine.operateRaw, Machine.locate,
    Machine.opval, Machine.set, Machine.get, Machine.FLAGGED,
    h1, h2, h3, hsrc, htgt, hopc, e1, e2, e3, e4, e5]

/-- Executing `POP A` reads the cell at `S` into `A` (recomputing the
flags from the popped value) and post-increments `S`; memory is
untouched. -/
lemma popA_spec (m : Machine) (hS2 : m.regS ≤ 16) (hmem : m.memory.getD m.regS 0 < 64) :
    popA m = { m with regA := m.memory.getD m.regS 0, regS := m.regS + 1, regF := flagWord m.regF (m.memory.getD m.regS 0 : Int) } := by
  have h1 : ¬((0o30 : Nat) ∈ Machine.PUSHES) := by decide
  have h2 : ¬((0o30 : Nat) ∈ Machine.BASES) := by decide
  have h3 : ((0o30 : Nat) ∈ Machine.POPS) := by decide
  have hsrc : Machine.SOURCES[(0o30 : Nat)]?.getD Mode.X = Mode.indS := by rfl
  have htgt : Machine.TARGETS[(0o30 : Nat)]?.getD Mode.X = Mode.rA := by rfl
  have hopc : OPCODES[(0o30 : Nat)]?.getD "" = "pop" := by rfl
  have e1 : (((m.regS : Nat) : Int) % 64).toNat = m.regS := by omega
  have e3 : (((m.regS : Int) + 1) % 64).toNat = m.regS + 1 := by omega
  simp [popA, Machine.execute, Machine.operate, Machine.operateRaw, Machine.locate,
    Machine.opval, Machine.set, Machine.get, Machine.FLAGGED, flag_eq,
    h1, h2, h3, hsrc, htgt, hopc, e1, e3]
  rw [List.getD_eq_getElem?_getD] at hmem
  omega

/-- Effect of a push sequence: `S` drops by the number of pushes, cells
outside the pushed window keep their values, and the pushed window holds
the pushed values (value `k` at address `S - 1 - k`). -/
lemma pushAll_spec :
    ∀ (vs : List Nat) (m : Machine), m.memory.length = 64 → (∀ x ∈ vs, x < 64) →
      vs.length ≤ m.regS → m.regS ≤ 16 →
      (pushAll m vs).regS = m.regS - vs.length
    ∧ (pushAll m vs).memory.length = m.memory.length
    ∧ (∀ j, (j < m.regS - vs.length ∨ m.regS ≤ j) →
        (pushAll m vs).memory.getD j 0 = m.memory.getD j 0)
    ∧ (∀ k, k < vs.length →
        (pushAll m vs).memory.getD (m.regS - 1 - k) 0 = vs.getD k 0) := by
  intro vs
  induction vs with
  | nil =>
      intro m hlen hvs hN hS
      refine ⟨by simp [pushAll], rfl, fun j hj => rfl, fun k hk => absurd hk (by simp)⟩
  | cons v vs ih =>
      intro m hlen hvs hN hS
      have hv : v < 64 := hvs v (by simp)
      have hS1 : 1 ≤ m.regS := by
        have := hN
        simp [List.length_cons] at this
        omega
      have hstep := pushA_spec m v hv hS1 hS
      have hall : pushAll m (v :: vs) = pushAll (pushA m v) vs := by
        simp [pushAll]
      rw [hall, hstep]
      have hih := ih { m with regA := v, regS := m.regS - 1, memory := m.memory.set (m.regS - 1) v }
        (by simpa using hlen)
        (fun x hx => hvs x (by simp [hx]))
        (by simp [List.length_cons] at hN ⊢; omega)
        (by simp; omega)
      obtain ⟨ihS, ihlen, ihout, ihin⟩ := hih
      simp only [List.length_set] at ihlen
      refine ⟨?_, ?_, ?_, ?_⟩
      · rw [ihS]
        show m.regS - 1 - vs.length = m.regS - (v :: vs).length
        simp only [List.length_cons]
        omega
      · simp only [ihlen, List.length_cons]
      · intro j hj
        have hj' : j < m.regS - 1 - vs.length ∨ m.regS - 1 ≤ j := by
          simp [List.length_cons] at hj
          omega
        rw [ihout j (by simpa using hj')]
        exact getD_set_of_ne _ _ _ _ _ (by simp [List.length_cons] at hj; omega)
      · intro k hk
        cases k with
        | zero =>
            simp only [Nat.sub_zero, List.getD_cons_zero]
            rw [ihout (m.regS - 1) (by simp)]
            exact getD_set_self _ _ _ _ (by omega)
        | succ k =>
            have hk' : k < vs.length := by simpa [List.length_cons] using hk
            have hsub : m.regS - 1 - (k + 1) = (m.regS - 1) - 1 - k := by omega
            rw [hsub, ihin k hk']
            simp

/-- Effect of a pop sequence: `S` rises by the number of pops, memory is
untouched, and the popped values are the cells at `S`, `S+1`, …. -/
lemma popAll_spec :
    ∀ (n : Nat) (m : Machine), m.regS + n ≤ 16 →
      (∀ k, k < n → m.memory.getD (m.regS + k) 0 < 64) →
      (popAll n m).1.regS = m.regS + n
    ∧ (popAll n m).1.memory = m.memory
    ∧ (popAll n m).2 = (List.range n).map (fun k => m.memory.getD (m.regS + k) 0) := by
  intro n
  induction n with
  | zero => intro m h1 h2; exact ⟨rfl, rfl, rfl⟩
  | succ n ih =>
      intro m h1 h2
      have hS2 : m.regS ≤ 16 := by omega
      have hmem : m.memory.getD m.regS 0 < 64 := by
        have := h2 0 (by omega)
        simpa using this
      have hstep := popA_spec m hS2 hmem
      have hun : popAll (n + 1) m = ((popAll n (popA m)).1, (popA m).regA :: (popAll n (popA m)).2) := rfl
      rw [hun, hstep]
      have hih := ih { m with regA := m.memory.getD m.regS 0, regS := m.regS + 1, regF := flagWord m.regF (m.memory.getD m.regS 0 : Int) }
        (by show m.regS + 1 + n ≤ 16; omega)
        (by
          intro k hk
          show m.memory.getD (m.regS + 1 + k) 0 < 64
          have hx := h2 (k + 1) (by omega)
          rwa [show m.regS + 1 + k = m.regS + (k + 1) from by omega])
      obtain ⟨ihS, ihmem, ihout⟩ := hih
      refine ⟨?_, ?_, ?_⟩
      · rw [ihS]
        show m.regS + 1 + n = m.regS + (n + 1)
        omega
      · exact ihmem
      · simp only [ihout]
        simp only [List.range_succ_eq_map, List.map_cons, List.map_map]
        simp only [List.cons.injEq]
        constructor
        · simp
        · apply List.map_congr_left
          intro k hk
          have he : m.regS + 1 + k = m.regS + (k + 1) := by omega
          rw [he]
          rfl

/-- The spec's concrete stack program, assembled by the embedded
assembler and run from reset on a machine with zeroed power-up memory. -/
def stackProgram : List String :=
  ["load A, o10", "load B, o22", "push A", "push B", "pop F", "stop"]

def stackRun : Bool × Machine :=
  match Assembler.assemble stackProgram with
  | .ok (_, enc) => Machine.run (fun _ => 0) 20 ((M0.reset 0).prom enc.toList)
  | .error _ => (false, M0)

/-- C5: stack discipline.  For any sequence of `N` pushes followed by `N`
pops with no intervening stack overflow (all pushed cells stay in RAM
below the stack top), the final stack pointer equals the initial one and
the popped values are the pushed values in reverse order; and concretely,
assembling and running `LOAD A,0o10; LOAD B,0o22; PUSH A; PUSH B; POP F;
STOP` from reset halts with `A = 0o10`, `B = 0o22`, `S = STACK - 1` and
flags `C = 0`, `M = 1`, `Z = 0`. -/
theorem spec_C5_stack_discipline (m : Machine) (vs : List Nat)
    (hlen : m.memory.length = 64) (hvs : ∀ x ∈ vs, x < 64)
    (hN : vs.length ≤ m.regS) (hS : m.regS ≤ 16) :
    ((popAll vs.length (pushAll m vs)).1.regS = m.regS
      ∧ (popAll vs.length (pushAll m vs)).2 = vs.reverse)
  ∧ (stackRun.1 = true ∧ stackRun.2.regA = 0o10 ∧ stackRun.2.regB = 0o22
      ∧ stackRun.2.regS = Machine.STACK - 1 ∧ stackRun.2.get .C = 0
      ∧ stackRun.2.get .M = 1 ∧ stackRun.2.get .Z = 0) := by
  constructor
  · obtain ⟨pS, plen, pout, pin⟩ := pushAll_spec vs m hlen hvs hN hS
    have hcells : ∀ k, k < vs.length →
        (pushAll m vs).memory.getD ((pushAll m vs).regS + k) 0 = vs.getD (vs.length - 1 - k) 0 := by
      intro k hk
      rw [pS]
      have : m.regS - vs.length + k = m.regS - 1 - (vs.length - 1 - k) := by omega
      rw [this]
      exact pin (vs.length - 1 - k) (by omega)
    have hbound : ∀ k, k < vs.length →
        (pushAll m vs).memory.getD ((pushAll m vs).regS + k) 0 < 64 := by
      intro k hk
      rw [hcells k hk]
      rcases Nat.lt_or_ge (vs.length - 1 - k) vs.length with h | h
      · rw [List.getD_eq_getElem _ _ h]
        exact hvs _ (List.getElem_mem h)
      · omega
    obtain ⟨qS, qmem, qout⟩ := popAll_spec vs.length (pushAll m vs)
      (by rw [pS]; omega) hbound
    refine ⟨by rw [qS, pS]; omega, ?_⟩
    rw [qout]
    apply List.ext_getElem
    · simp
    · intro i hi1 hi2
      simp only [List.getElem_map, List.getElem_range]
      have hi : i < vs.length := by simpa using hi1
      rw [hcells i hi, List.getElem_reverse]
      have hrange : vs.length - 1 - i < vs.length := by omega
      rw [List.getD_eq_getElem _ _ hrange]
  · decide

/-- C5 witness: the discipline at a concrete machine and push list. -/
theorem spec_C5_stack_discipline_witness :
    ((popAll ([1, 2].length) (pushAll (⟨List.replicate 64 0, 0, 0, 0o30, 0o20, 0, 0⟩ : Machine) [1, 2])).1.regS = 0o20
      ∧ (popAll ([1, 2].length) (pushAll (⟨List.replicate 64 0, 0, 0, 0o30, 0o20, 0, 0⟩ : Machine) [1, 2])).2 = [2, 1])
  ∧ (stackRun.1 = true ∧ stackRun.2.regA = 0o10 ∧ stackRun.2.regB = 0o22
      ∧ stackRun.2.regS = Machine.STACK - 1 ∧ stackRun.2.get .C = 0
      ∧ stackRun.2.get .M = 1 ∧ stackRun.2.get .Z = 0) :=
  spec_C5_stack_discipline ⟨List.replicate 64 0, 0, 0, 0o30, 0o20, 0, 0⟩ [1, 2]
    (by decide) (by decide) (by decide) (by decide)

/-! ## Claim C8 -/

/-- C8 counterexample: `add` folds the incoming Carry flag into the sum
(`value = a + value + c`), so with Carry initially set, adding 1 to
`A = 63` stores `(63 + 1 + 1) % 64 = 1`, not `(63 + 1) % 64 = 0`. -/
theorem spec_C8_counterexample :
    ((⟨List.replicate 64 0, 63, 0, 0, 0, 4, 0⟩ : Machine).execute 0o60 (some 1)).regA = 1 ∧
      (63 + 1) % 64 = 0 := by decide

/-- C8 (amended): executing an immediate ADD (opcode 0o60) of `v` into an
accumulator holding `a`, with the Carry flag initially clear and
`a + v > 63`, sets the Carry flag to 1 and stores `(a + v) mod 64` in `A`. -/
theorem spec_C8_add_overflow_amended (m : Machine) (v : Nat)
    (hF : m.regF < 64) (hC : m.get .C = 0) (hA : m.regA < 64) (hv : v < 64)
    (hsum : 63 < m.regA + v) :
    (m.execute 0o60 (some v)).get .C = 1
  ∧ (m.execute 0o60 (some v)).regA = (m.regA + v) % 64 := by
  have h1 : ¬((0o60 : Nat) ∈ Machine.PUSHES) := by decide
  have h2 : ¬((0o60 : Nat) ∈ Machine.BASES) := by decide
  have h3 : ¬((0o60 : Nat) ∈ Machine.POPS) := by decide
  have hsrc : Machine.SOURCES[(0o60 : Nat)]?.getD Mode.X = Mode.imm := by rfl
  have htgt : Machine.TARGETS[(0o60 : Nat)]?.getD Mode.X = Mode.rA := by rfl
  have hopc : OPCODES[(0o60 : Nat)]?.getD "" = "add" := by rfl
  have key : m.execute 0o60 (some v) =
      (m.flag ((m.regA : Int) + (v : Int) + (m.get .C : Int))).set .A
        (((m.regA : Int) + (v : Int) + (m.get .C : Int)) % 64) false := by
    simp [Machine.execute, Machine.operate, Machine.operateRaw, Machine.locate,
      Machine.opval, h1, h2, h3, hsrc, htgt, hopc, Machine.get, Machine.FLAGGED]
  obtain ⟨-, -, gc, -, -, -, -, -, -⟩ :=
    get_flag m hF ((m.regA : Int) + (v : Int) + (m.get .C : Int))
  constructor
  · have hCget : ((m.flag ((m.regA : Int) + (v : Int) + (m.get .C : Int))).set .A
        (((m.regA : Int) + (v : Int) + (m.get .C : Int)) % 64) false).get .C =
        (m.flag ((m.regA : Int) + (v : Int) + (m.get .C : Int))).get .C := rfl
    rw [key, hCget, gc, if_pos]
    right
    omega
  · rw [key]
    have : ∀ (M : Machine) (x : Int), (M.set .A x false).regA = (x % 64).toNat :=
      fun M x => rfl
    rw [this]
    omega

/-- C8 witness: the amended overflow statement at `A = 63`, `v = 1`,
Carry clear. -/
theorem spec_C8_add_overflow_amended_witness :
    ((⟨List.replicate 64 0, 63, 0, 0, 0, 0, 0⟩ : Machine).execute 0o60 (some 1)).get .C = 1
  ∧ ((⟨List.replicate 64 0, 63, 0, 0, 0, 0, 0⟩ : Machine).execute 0o60 (some 1)).regA =
      (63 + 1) % 64 :=
  spec_C8_add_overflow_amended _ 1 (by decide) (by decide) (by decide) (by decide) (by decide)

/-! ## Claims C6, C7 and C10: assembler scan invariants -/

/-- The state of a successful assembly (junk on a crashed one). -/
def okState (r : Except Crash (Assembler × String)) : Assembler :=
  match r with
  | .ok p => p.1
  | .error _ => Assembler.init

/-- The returned image string of a successful assembly. -/
def okImage (r : Except Crash (Assembler × String)) : String :=
  match r with
  | .ok p => p.2
  | .error _ => ""

lemma okSplit (r : Except Crash (Assembler × String)) (h : r.toOption.isSome = true) :
    r = .ok (okState r, okImage r) := by
  cases r with
  | ok p => rfl
  | error e => simp [Except.toOption] at h

/-- Relation preserved by every scanning step: the published-image field
is untouched, the ghost write footprint only grows, and image cells
outside the footprint keep their values. -/
def AsmInv (a b : Assembler) : Prop :=
  b.encoded = a.encoded
  ∧ (∀ i, i ∈ a.touched → i ∈ b.touched)
  ∧ (∀ i, i ∉ b.touched → b.code.getD i (Cell.byte 0) = a.code.getD i (Cell.byte 0))

lemma asmInv_refl (a : Assembler) : AsmInv a a := ⟨rfl, fun _ h => h, fun _ _ => rfl⟩

lemma asmInv_trans {a b c : Assembler} (h1 : AsmInv a b) (h2 : AsmInv b c) : AsmInv a c := by
  obtain ⟨e1, t1, c1⟩ := h1
  obtain ⟨e2, t2, c2⟩ := h2
  refine ⟨e2.trans e1, fun i hi => t2 i (t1 i hi), fun i hi => ?_⟩
  have hib : i ∉ b.touched := fun hmem => hi (t2 i hmem)
  exact (c2 i hi).trans (c1 i hib)

lemma asmInv_error (a : Assembler) (n : Nat) (t msg : String) : AsmInv a (a.error n t msg) :=
  ⟨rfl, fun _ h => h, fun _ _ => rfl⟩

lemma asmInv_log (a : Assembler) (l : String) (addr : Option Nat) : AsmInv a (a.log l addr) := by
  unfold Assembler.log
  cases addr <;> exact ⟨rfl, fun _ h => h, fun _ _ => rfl⟩

lemma asmInv_labels (a : Assembler) (ls : List (String × Nat)) :
    AsmInv a { a with labels := ls } :=
  ⟨rfl, fun _ h => h, fun _ _ => rfl⟩

lemma asmInv_apply : ∀ (enc : List Cell) (a : Assembler) (addr lineno : Nat),
    AsmInv a (Assembler.apply a addr enc lineno).1 := by
  intro enc
  induction enc with
  | nil => intro a addr n; exact asmInv_refl a
  | cons c cs ih =>
      intro a addr n
      rw [Assembler.apply]
      split
      · exact asmInv_trans (asmInv_error a _ _ _) (ih _ _ _)
      · refine asmInv_trans ?_ (ih _ _ _)
        refine ⟨rfl, fun i hi => by simp [hi], fun i hi => ?_⟩
        have hne : addr - Machine.PROM ≠ i := by
          intro he
          exact hi (by rw [← he]; simp)
        exact getD_set_of_ne _ _ _ _ _ hne

lemma asmInv_literalGo :
    ∀ (l : List Char) (q : Option Char) (count : Nat) (a : Assembler) (acc : List Nat)
      (b : Assembler) (out : List Nat),
      Assembler.literalGo count a q l acc = .ok (b, out) → AsmInv a b := by
  intro l
  induction l with
  | nil =>
      intro q count a acc b out h
      cases q <;> simp only [Assembler.literalGo] at h <;>
        (injection h with h1; injection h1 with h2 h3; rw [← h2]; exact asmInv_refl a)
  | cons c rest ih =>
      intro q count a acc b out h
      cases q with
      | some q =>
          rw [Assembler.literalGo] at h
          split at h
          · exact ih _ _ _ _ _ _ h
          · split at h
            · cases h
            · exact ih _ _ _ _ _ _ h
      | none =>
          rw [Assembler.literalGo] at h
          split at h
          · exact ih _ _ _ _ _ _ h
          · split at h
            · exact ih _ _ _ _ _ _ h
            · injection h with h1
              injection h1 with h2 h3
              rw [← h2]
              exact asmInv_error a _ _ _

lemma asmInv_scanAbs (count : Nat) (home : Bool) (asm : Assembler) (label lit : String)
    (ss' : Assembler.ScanState) (h : Assembler.scanAbs count home asm label lit = .ok ss') :
    AsmInv asm ss'.asm := by
  unfold Assembler.scanAbs at h
  dsimp only at h
  cases himm : Assembler.immediate lit with
  | some c =>
      try rw [himm] at h
      cases c with
      | byte v =>
          dsimp only at h
          injection h with h1
          rw [← h1]
          dsimp only
          refine asmInv_trans ?_ (asmInv_trans (asmInv_labels _ _) (asmInv_log _ _ _))
          split
          · exact asmInv_error _ _ _ _
          · exact asmInv_refl _
      | ref s =>
          try dsimp only at h
          exact Except.noConfusion h
  | none =>
      try rw [himm] at h
      try dsimp only at h
      exact Except.noConfusion h

lemma asmInv_scanNormal (count address : Nat) (asm : Assembler) (label : String) :
    AsmInv asm (Assembler.scanNormal count address asm label).asm := by
  unfold Assembler.scanNormal
  dsimp only
  refine asmInv_trans ?_ (asmInv_trans (asmInv_labels _ _) (asmInv_log _ _ _))
  split
  · exact asmInv_error _ _ _ _
  · exact asmInv_refl _

lemma asmInv_scanInstr (count address : Nat) (home : Bool) (asm : Assembler)
    (line : List Char) (encoding : List Cell) :
    AsmInv asm (Assembler.scanInstr count address home asm line encoding).asm := by
  unfold Assembler.scanInstr
  dsimp only
  exact asmInv_trans (asmInv_log _ _ _) (asmInv_apply _ _ _ _)

lemma asmInv_scanLiteral (count address : Nat) (home : Bool) (asm : Assembler)
    (line : List Char) (ss' : Assembler.ScanState)
    (h : Assembler.scanLiteral count address home asm line = .ok ss') :
    AsmInv asm ss'.asm := by
  unfold Assembler.scanLiteral at h
  dsimp only at h
  cases hlit : Assembler.literalGo count asm none (stripChars (line.drop 1)) [] with
  | error e =>
      try rw [hlit] at h
      try dsimp only at h
      exact Except.noConfusion h
  | ok p =>
      obtain ⟨asm2, encoding⟩ := p
      try rw [hlit] at h
      dsimp only at h
      have hbase : AsmInv asm asm2 := asmInv_literalGo _ _ _ _ _ _ _ hlit
      split at h
      · injection h with h1
        rw [← h1]
        dsimp only
        exact asmInv_trans hbase (asmInv_trans (asmInv_log _ _ _) (asmInv_apply _ _ _ _))
      · injection h with h1
        rw [← h1]
        exact hbase

lemma asmInv_pair (ss : Assembler.ScanState) (line : List Char) :
    AsmInv ss.asm
      (if ¬ ss.home ∧ line.headD ' ' ≠ ':' then
        (({ ss.asm with labels := setLabel ss.asm.labels "home" ss.address }).log
          (":" ++ Assembler.padRight "home" 19 ++ " ;") (some ss.address), true)
      else (ss.asm, ss.home)).1 := by
  split
  · exact asmInv_trans (asmInv_labels _ _) (asmInv_log _ _ _)
  · exact asmInv_refl _

lemma asmInv_scanLine (ss : Assembler.ScanState) (l : String) (ss' : Assembler.ScanState)
    (h : Assembler.scanLine ss l = .ok ss') : AsmInv ss.asm ss'.asm := by
  unfold Assembler.scanLine at h
  dsimp only at h
  split at h
  case isTrue => injection h with h1; rw [← h1]; exact asmInv_refl _
  case isFalse =>
  split at h
  case isTrue => injection h with h1; rw [← h1]; exact asmInv_log _ _ _
  case isFalse =>
  have hpair := asmInv_pair ss (stripChars l.toList)
  cases habs : Assembler.parseAbsLabel (stripChars l.toList) with
  | some p =>
      obtain ⟨label, lit⟩ := p
      try rw [habs] at h
      dsimp only at h
      exact asmInv_trans hpair (asmInv_scanAbs _ _ _ _ _ _ h)
  | none =>
  try rw [habs] at h
  dsimp only at h
  cases hlab : Assembler.parseLabel (stripChars l.toList) with
  | some label =>
      try rw [hlab] at h
      dsimp only at h
      injection h with h1
      rw [← h1]
      exact asmInv_trans hpair (asmInv_scanNormal _ _ _ _)
  | none =>
  try rw [hlab] at h
  dsimp only at h
  cases hins : Assembler.instruction (String.mk (stripChars l.toList)) with
  | error e =>
      try rw [hins] at h
      try dsimp only at h
      exact Except.noConfusion h
  | ok oenc =>
  try rw [hins] at h
  cases oenc with
  | some encoding =>
      dsimp only at h
      injection h with h1
      rw [← h1]
      exact asmInv_trans hpair (asmInv_scanInstr _ _ _ _ _ _)
  | none =>
  dsimp only at h
  split at h
  case isTrue => exact asmInv_trans hpair (asmInv_scanLiteral _ _ _ _ _ _ h)
  case isFalse =>
    injection h with h1
    rw [← h1]
    exact asmInv_trans hpair (asmInv_error _ _ _ _)

lemma asmInv_scanLines :
    ∀ (lines : List String) (ss ss' : Assembler.ScanState),
      Assembler.scanLines ss lines = .ok ss' → AsmInv ss.asm ss'.asm := by
  intro lines
  induction lines with
  | nil =>
      intro ss ss' h
      injection h with h1
      rw [← h1]
      exact asmInv_refl _
  | cons l ls ih =>
      intro ss ss' h
      rw [Assembler.scanLines] at h
      split at h
      · cases h
      · exact asmInv_trans (asmInv_scanLine ss l _ (by assumption)) (ih _ _ h)

/-- The fix-up pass only appends diagnostics: image, footprint, published
image and label table come through unchanged. -/
lemma fixupGo_frame :
    ∀ (cells : List Cell) (count : Nat) (a : Assembler) (acc : List Char)
      (b : Assembler) (chars : List Char),
      Assembler.fixupGo count a acc cells = .ok (b, chars) →
      b.code = a.code ∧ b.touched = a.touched ∧ b.encoded = a.encoded ∧ b.labels = a.labels := by
  intro cells
  induction cells with
  | nil =>
      intro count a acc b chars h
      injection h with h1
      injection h1 with h2 h3
      rw [← h2]
      exact ⟨rfl, rfl, rfl, rfl⟩
  | cons c cs ih =>
      intro count a acc b chars h
      rw [Assembler.fixupGo.eq_def] at h
      dsimp only at h
      split at h
      · split at h
        · have hrec := ih _ _ _ _ _ h
          exact hrec
        · cases h
      · split at h
        · have hrec := ih _ _ _ _ _ h
          exact hrec
        · split at h
          · have hrec := ih _ _ _ _ _ h
            exact hrec
          · cases h

/-! ## Claim C6 -/

/-- C6 counterexample: a source whose only diagnostic is a single
label-redefinition *warning* still fails to publish the image:
`self.encoded` stays empty even though the 40-cell image was produced
and returned. -/
theorem spec_C6_counterexample :
    (Assembler.assemble [":x", ":x"]).toOption.map
        (fun p => (p.1.errors, p.1.encoded, p.2.length)) =
      some (["input(2): Warning: Redefining label :x"], "", 40) := by decide

/-- C6 (amended): `Assembler.assemble` publishes the encoded image into
`self.encoded` only when the accumulated diagnostics list is completely
empty; any diagnostic — warning or error — leaves the published-image
field empty. -/
theorem spec_C6_publish_amended (lines : List String) (a : Assembler) (enc : String)
    (h : Assembler.assemble lines = .ok (a, enc)) :
    a.encoded = if a.errors = [] then enc else "" := by
  unfold Assembler.assemble at h
  cases hscan : Assembler.scanLines
      { asm := Assembler.init, address := Machine.PROM, home := false, count := 0 } lines with
  | error e => rw [hscan] at h; simp at h
  | ok ss =>
      rw [hscan] at h
      dsimp only at h
      unfold Assembler.finish at h
      cases hfix : Assembler.fixupGo ss.count ss.asm [] ss.asm.code with
      | error e => rw [hfix] at h; simp at h
      | ok p =>
          obtain ⟨a1, chars⟩ := p
          rw [hfix] at h
          dsimp only at h
          have hinv := asmInv_scanLines lines _ ss hscan
          have hframe := fixupGo_frame ss.asm.code ss.count ss.asm [] a1 chars hfix
          have henc0 : a1.encoded = "" := by
            rw [hframe.2.2.1, hinv.1]
            rfl
          simp only [Except.ok.injEq, Prod.mk.injEq] at h
          obtain ⟨ha, hen⟩ := h
          by_cases herr : a1.errors = []
          · rw [if_pos herr] at ha
            rw [← ha, ← hen]
            simp [herr]
          · rw [if_neg herr] at ha
            rw [← ha]
            rw [if_neg herr]
            exact henc0

/-- C6 witness: the amended statement at the warning-only source. -/
theorem spec_C6_publish_amended_witness :
    (okState (Assembler.assemble [":x", ":x"])).encoded =
      if (okState (Assembler.assemble [":x", ":x"])).errors = []
      then okImage (Assembler.assemble [":x", ":x"]) else "" :=
  spec_C6_publish_amended [":x", ":x"] _ _
    (okSplit (Assembler.assemble [":x", ":x"]) (by decide))

/-! ## Claim C7 -/

/-- The character the fix-up pass emits for one image cell: a numeric byte
maps through OSCII directly; a symbolic reference maps through the label
table, or collapses to byte zero if the label was never defined. -/
def resolveChar (labels : List (String × Nat)) : Cell → Char
  | .byte b => OSCII.getD b ' '
  | .ref label =>
      match lookupLabel labels label with
      | none => OSCII.getD 0 ' '
      | some v => OSCII.getD v ' '

/-- The diagnostic the fix-up pass appends for one image cell, if any. -/
def unresolvedMsg (count : Nat) (labels : List (String × Nat)) : Cell → Option String
  | .byte _ => none
  | .ref label =>
      match lookupLabel labels label with
      | none => some ("input(" ++ Nat.repr count ++ "): Error: Never resolved address: &" ++ label)
      | some _ => none

/-- A cell whose resolved byte stays inside the 64-character OSCII
alphabet, so `OSCII[byte]` cannot fault. -/
def cellOK (labels : List (String × Nat)) : Cell → Bool
  | .byte b => b < 0o100
  | .ref label =>
      match lookupLabel labels label with
      | none => true
      | some v => v < 0o100

/-- The diagnostic string built by `Assembler.error`, flattened. -/
lemma errorMsg_flat (count : Nat) (label : String) :
    "input(" ++ Nat.repr count ++ "): " ++ "Error" ++ ": " ++
        ("Never resolved address: &" ++ label) =
      "input(" ++ Nat.repr count ++ "): Error: Never resolved address: &" ++ label := by
  have h2 : ("): " : String) ++ "Error" ++ ": " ++ "Never resolved address: &" =
      "): Error: Never resolved address: &" := by decide
  rw [← h2]
  simp only [String.append_assoc]

/-- Full characterisation of the fix-up pass on in-range cells: it returns
the accumulator extended by the resolved characters, and the assembler
with exactly the unresolved-reference diagnostics appended. -/
lemma fixupGo_spec :
    ∀ (cells : List Cell) (count : Nat) (a : Assembler) (acc : List Char),
      (∀ c ∈ cells, cellOK a.labels c = true) →
      Assembler.fixupGo count a acc cells =
        .ok ({ a with errors := a.errors ++ cells.filterMap (unresolvedMsg count a.labels) },
             acc ++ cells.map (resolveChar a.labels)) := by
  intro cells
  induction cells with
  | nil =>
      intro count a acc h
      simp [Assembler.fixupGo]
  | cons c cs ih =>
      intro count a acc h
      have hc := h c (by simp)
      have hcs : ∀ x ∈ cs, cellOK a.labels x = true := fun x hx => h x (by simp [hx])
      rw [Assembler.fixupGo.eq_def]
      cases c with
      | byte b =>
          dsimp only
          have hb : b < 0o100 := by simpa [cellOK] using hc
          rw [if_pos hb]
          rw [ih count a (acc ++ [OSCII.getD b ' ']) hcs]
          simp [unresolvedMsg, resolveChar, List.append_assoc]
      | ref label =>
          dsimp only
          cases hl : lookupLabel a.labels label with
          | none =>
              dsimp only
              rw [ih count (a.error count "Error" ("Never resolved address: &" ++ label))
                    (acc ++ [OSCII.getD 0 ' ']) hcs]
              simp [Assembler.error, unresolvedMsg, resolveChar, hl, List.append_assoc]
              exact errorMsg_flat count label
          | some v =>
              dsimp only
              have hv : v < 0o100 := by simpa [cellOK, hl] using hc
              rw [if_pos hv]
              rw [ih count a (acc ++ [OSCII.getD v ' ']) hcs]
              simp [unresolvedMsg, resolveChar, hl, List.append_assoc]

/-- C7: if the scanned image still holds a `&label` placeholder whose label
was never defined, the resolution pass records the fatal unresolved-address
diagnostic (so the error list is non-empty), substitutes the byte-zero
OSCII character at the placeholder's position, and — the diagnostics list
being non-empty — never publishes the image into `self.encoded`; and
concretely `assemble ["jmp &nowhere"]` ends with exactly the one
unresolved-reference error, an unpublished image, and the zero byte in
place of the operand. -/
theorem spec_C7_unresolved (count : Nat) (a : Assembler) (label : String) (i : Nat)
    (hi : i < a.code.length)
    (hcell : a.code.getD i (Cell.byte 0) = Cell.ref label)
    (hnone : lookupLabel a.labels label = none)
    (hok : ∀ c ∈ a.code, cellOK a.labels c = true)
    (henc : a.encoded = "") :
    (∃ b enc, Assembler.finish count a = .ok (b, enc)
      ∧ b.errors ≠ []
      ∧ ("input(" ++ Nat.repr count ++ "): Error: Never resolved address: &" ++ label) ∈ b.errors
      ∧ b.encoded = ""
      ∧ enc.toList.getD i ' ' = OSCII.getD 0 ' ')
    ∧ ((Assembler.assemble ["jmp &nowhere"]).toOption.map
          (fun p => (p.1.errors, p.1.encoded, p.2)) =
        some (["input(1): Error: Never resolved address: &nowhere"], "",
              String.mk ('B' :: OSCII.getD 0 ' ' :: List.replicate 38 '%'))) := by
  refine ⟨?_, by decide⟩
  have hcode_i : a.code[i] = Cell.ref label := by
    rw [← List.getD_eq_getElem a.code (Cell.byte 0) hi]
    exact hcell
  have hmem : Cell.ref label ∈ a.code := hcode_i ▸ List.getElem_mem hi
  have hmsgmem :
      ("input(" ++ Nat.repr count ++ "): Error: Never resolved address: &" ++ label) ∈
        a.errors ++ a.code.filterMap (unresolvedMsg count a.labels) := by
    refine List.mem_append_right _ (List.mem_filterMap.mpr ⟨Cell.ref label, hmem, ?_⟩)
    simp [unresolvedMsg, hnone]
  have hne : a.errors ++ a.code.filterMap (unresolvedMsg count a.labels) ≠ [] :=
    List.ne_nil_of_mem hmsgmem
  unfold Assembler.finish
  rw [fixupGo_spec a.code count a [] hok]
  dsimp only
  rw [if_neg hne]
  refine ⟨_, _, rfl, hne, hmsgmem, henc, ?_⟩
  show (a.code.map (resolveChar a.labels)).getD i ' ' = OSCII.getD 0 ' '
  rw [List.getD_eq_getElem _ _ (by simpa using hi), List.getElem_map]
  rw [hcode_i]
  simp [resolveChar, hnone]

/-- A post-scan assembler whose image still holds one undefinable
reference. -/
def unresolvedAsm : Assembler :=
  { labels := [], errors := [], listing := [], code := [Cell.ref "zzz"],
    encoded := "", touched := [] }

/-- C7 witness: the theorem at the one-cell image `[&zzz]`. -/
theorem spec_C7_unresolved_witness :
    (∃ b enc, Assembler.finish 1 unresolvedAsm = .ok (b, enc)
      ∧ b.errors ≠ []
      ∧ ("input(" ++ Nat.repr 1 ++ "): Error: Never resolved address: &" ++ "zzz") ∈ b.errors
      ∧ b.encoded = ""
      ∧ enc.toList.getD 0 ' ' = OSCII.getD 0 ' ')
    ∧ ((Assembler.assemble ["jmp &nowhere"]).toOption.map
          (fun p => (p.1.errors, p.1.encoded, p.2)) =
        some (["input(1): Error: Never resolved address: &nowhere"], "",
              String.mk ('B' :: OSCII.getD 0 ' ' :: List.replicate 38 '%'))) :=
  spec_C7_unresolved 1 unresolvedAsm "zzz" 0 (by decide) (by decide) (by decide)
    (by decide) (by decide)

/-! ## Claim C10 -/

/-- C10: an image cell no source statement ever wrote (it is outside the
write footprint) still holds the STOP opcode placed there by
`Assembler.__init__`; and concretely both the empty source and a
comment-only source assemble without diagnostics into the all-STOP image,
published as forty `%` characters. -/
theorem spec_C10_default_stop (lines : List String) (a : Assembler) (enc : String)
    (h : Assembler.assemble lines = .ok (a, enc)) :
    (∀ i, i < Machine.PROMLEN → i ∉ a.touched →
        a.code.getD i (Cell.byte 0) = Cell.byte Machine.STOP)
    ∧ ((Assembler.assemble []).toOption.map
          (fun p => (p.1.errors, p.1.code, p.1.encoded, p.2)) =
        some ([], List.replicate Machine.PROMLEN (Cell.byte Machine.STOP),
              String.mk (List.replicate Machine.PROMLEN (OSCII.getD Machine.STOP ' ')),
              String.mk (List.replicate Machine.PROMLEN (OSCII.getD Machine.STOP ' '))))
    ∧ ((Assembler.assemble ["; just a comment"]).toOption.map
          (fun p => (p.1.errors, p.1.code, p.1.encoded, p.2)) =
        some ([], List.replicate Machine.PROMLEN (Cell.byte Machine.STOP),
              String.mk (List.replicate Machine.PROMLEN (OSCII.getD Machine.STOP ' ')),
              String.mk (List.replicate Machine.PROMLEN (OSCII.getD Machine.STOP ' ')))) := by
  refine ⟨?_, by decide, by decide⟩
  intro i hlt htouch
  unfold Assembler.assemble at h
  cases hscan : Assembler.scanLines
      { asm := Assembler.init, address := Machine.PROM, home := false, count := 0 } lines with
  | error e => rw [hscan] at h; simp at h
  | ok ss =>
      rw [hscan] at h
      dsimp only at h
      unfold Assembler.finish at h
      cases hfix : Assembler.fixupGo ss.count ss.asm [] ss.asm.code with
      | error e => rw [hfix] at h; simp at h
      | ok p =>
          obtain ⟨a1, chars⟩ := p
          rw [hfix] at h
          dsimp only at h
          simp only [Except.ok.injEq, Prod.mk.injEq] at h
          obtain ⟨ha, hen⟩ := h
          have hinv := asmInv_scanLines lines _ ss hscan
          have hframe := fixupGo_frame ss.asm.code ss.count ss.asm [] a1 chars hfix
          have hacode : a.code = ss.asm.code := by
            rw [← ha]
            split
            · exact hframe.1
            · exact hframe.1
          have hatouch : a.touched = ss.asm.touched := by
            rw [← ha]
            split
            · exact hframe.2.1
            · exact hframe.2.1
          rw [hacode]
          rw [hatouch] at htouch
          rw [hinv.2.2 i htouch]
          show (List.replicate Machine.PROMLEN (Cell.byte Machine.STOP)).getD i (Cell.byte 0) =
            Cell.byte Machine.STOP
          rw [List.getD_eq_getElem?_getD, List.getElem?_replicate]
          simp [hlt]

/-- C10 witness: the theorem at the empty source. -/
theorem spec_C10_default_stop_witness :
    (∀ i, i < Machine.PROMLEN → i ∉ (okState (Assembler.assemble [])).touched →
        (okState (Assembler.assemble [])).code.getD i (Cell.byte 0) = Cell.byte Machine.STOP)
    ∧ ((Assembler.assemble []).toOption.map
          (fun p => (p.1.errors, p.1.code, p.1.encoded, p.2)) =
        some ([], List.replicate Machine.PROMLEN (Cell.byte Machine.STOP),
              String.mk (List.replicate Machine.PROMLEN (OSCII.getD Machine.STOP ' ')),
              String.mk (List.replicate Machine.PROMLEN (OSCII.getD Machine.STOP ' '))))
    ∧ ((Assembler.assemble ["; just a comment"]).toOption.map
          (fun p => (p.1.errors, p.1.code, p.1.encoded, p.2)) =
        some ([], List.replicate Machine.PROMLEN (Cell.byte Machine.STOP),
              String.mk (List.replicate Machine.PROMLEN (OSCII.getD Machine.STOP ' ')),
              String.mk (List.replicate Machine.PROMLEN (OSCII.getD Machine.STOP ' ')))) :=
  spec_C10_default_stop [] _ _ (okSplit (Assembler.assemble []) (by decide))

/-! ## Claim C9 -/

/-- C9: assembling a literal-data line containing a character outside the
64-symbol OSCII alphabet does not record a diagnostic and continue — the
scan aborts with the uncaught `KeyError` that `ENCODING[char]` raises
(here the line `= 'a'`, whose lowercase letter is unencodable). -/
theorem spec_C9_unencodable_crash :
    Assembler.assemble [String.mk ['=', ' ', squote, 'a', squote]] =
      .error (Crash.keyError 'a') := by
  rfl

end OctalPlus
